import Mathlib

set_option maxRecDepth 10000

/- Shallow embedding of the resolution-and-upload pipeline of
   src/src/googlephotos2nextcloud.go.  The file holds two program variants;
   this development embeds the complete second variant (the one with the
   EXIF fallback resolver, directory provisioning and retrying uploads),
   which is the one the specification declares canonical and the one all
   claim line references point into.

   Modelling conventions:
   - Go strings are lists of characters (GoStr).
   - The global map myMap is an association list with unique keys; Go map
     assignment is mapInsert (overwrite in place), Go map lookup is lookupA.
   - The filesystem walk is a list of WalkEntry values; file contents and
     metadata-extraction results are oracle functions supplied as inputs.
   - HTTP interaction is an oracle from attempt number (or URL) to the
     outcome the Go code branches on.
   - time.Unix renders in the process local timezone; it is modelled here
     with the local timezone taken to be UTC. -/

abbrev GoStr := List Char

def gs (s : String) : GoStr := s.toList

/-- Character membership scan over a Go string. -/
def containsChar (c : Char) : GoStr → Bool
  | [] => false
  | a :: rest => if a = c then true else containsChar c rest

/-- Go strings.Count with a single-character argument: number of occurrences. -/
def countChar (c : Char) : GoStr → Nat
  | [] => 0
  | a :: rest => (if a = c then 1 else 0) + countChar c rest

/-- Go strings.Split with a single-character separator. -/
def splitOnChar (c : Char) : GoStr → List GoStr
  | [] => [[]]
  | a :: rest =>
    if a = c then [] :: splitOnChar c rest
    else
      match splitOnChar c rest with
      | [] => [[a]]
      | h :: t => (a :: h) :: t

/-- Boolean test that the first list is a prefix of the second. -/
def isPrefixOfB : GoStr → GoStr → Bool
  | [], _ => true
  | _ :: _, [] => false
  | p :: ps, s :: ss => if p = s then isPrefixOfB ps ss else false

/-- Go strings.Contains: pat occurs as a contiguous substring of s. -/
def containsSub : GoStr → GoStr → Bool
  | [], pat => isPrefixOfB pat []
  | a :: rest, pat => if isPrefixOfB pat (a :: rest) then true else containsSub rest pat

/-- Go strings.HasSuffix: p is a suffix of s. -/
def hasSuffixB : GoStr → GoStr → Bool
  | [], p => if p = [] then true else false
  | a :: s, p => if a :: s = p then true else hasSuffixB s p

/-- The part of a path after its last slash (the whole path when it has none). -/
def afterLastSlash : GoStr → GoStr
  | [] => []
  | a :: rest =>
    if containsChar '/' rest then afterLastSlash rest
    else if a = '/' then rest
    else a :: rest

/-- The part of a path strictly before its last slash (empty when it has none). -/
def beforeLastSlash : GoStr → GoStr
  | [] => []
  | a :: rest => if containsChar '/' rest then a :: beforeLastSlash rest else []

/-- Go filepath.Ext on a slash-free name: the suffix starting at the final dot,
empty when the name has no dot. -/
def extOf : GoStr → GoStr
  | [] => []
  | a :: rest =>
    if a = '.' ∧ containsChar '.' rest = false then '.' :: rest
    else extOf rest

/-- Go filepath.Ext on a full path: the extension of its final element. -/
def filepathExt (p : GoStr) : GoStr := extOf (afterLastSlash p)

/-- Go filepath.Dir (path cleaning of redundant separators is not modelled;
paths are used as opaque keys). -/
def dirOf (p : GoStr) : GoStr :=
  if containsChar '/' p then
    match beforeLastSlash p with
    | [] => ['/']
    | d => d
  else ['.']

/-- Go filepath.Join of a directory and a file name (path cleaning not
modelled; paths are used as opaque keys). -/
def joinPath (d t : GoStr) : GoStr :=
  if t = [] then d
  else if d = [] then t
  else d ++ '/' :: t

/- ### Timestamp parsing and formatting (extractDateFolder) -/

def digitVal (c : Char) : Nat := c.toNat - '0'.toNat

/-- Go's time leap-year rule (Gregorian, proleptic). -/
def isLeapYear (y : Nat) : Bool :=
  y % 4 = 0 ∧ (y % 100 ≠ 0 ∨ y % 400 = 0)

/-- Days in a month, as Go's time.daysIn. -/
def daysInMonth (y mo : Nat) : Nat :=
  if mo = 2 then (if isLeapYear y then 29 else 28)
  else if mo = 4 ∨ mo = 6 ∨ mo = 9 ∨ mo = 11 then 30
  else 31

/-- Go time.Parse with layout 2006-01-02T15:04:05Z (the trailing Z is a
literal): fixed-width digit fields, with Go's range validation of month,
day-in-month, hour, minute and second.  Returns the year and month. -/
def parseISO : GoStr → Option (Int × Nat)
  | [y1, y2, y3, y4, '-', o1, o2, '-', d1, d2, 'T', h1, h2, ':', n1, n2, ':', e1, e2, 'Z'] =>
    if (y1.isDigit && y2.isDigit && y3.isDigit && y4.isDigit &&
        o1.isDigit && o2.isDigit && d1.isDigit && d2.isDigit &&
        h1.isDigit && h2.isDigit && n1.isDigit && n2.isDigit &&
        e1.isDigit && e2.isDigit) = true then
      let y := digitVal y1 * 1000 + digitVal y2 * 100 + digitVal y3 * 10 + digitVal y4
      let mo := digitVal o1 * 10 + digitVal o2
      let da := digitVal d1 * 10 + digitVal d2
      let hh := digitVal h1 * 10 + digitVal h2
      let mi := digitVal n1 * 10 + digitVal n2
      let se := digitVal e1 * 10 + digitVal e2
      if 1 ≤ mo ∧ mo ≤ 12 ∧ 1 ≤ da ∧ da ≤ daysInMonth y mo ∧ hh ≤ 23 ∧ mi ≤ 59 ∧ se ≤ 59 then
        some ((y : Int), mo)
      else none
    else none
  | _ => none

def parseDigitsAux : GoStr → Nat → Option Nat
  | [], acc => some acc
  | c :: rest, acc =>
    if c.isDigit = true then parseDigitsAux rest (acc * 10 + digitVal c) else none

/-- A nonempty all-digit string, as a number. -/
def parseDigits : GoStr → Option Nat
  | [] => none
  | l => parseDigitsAux l 0

/-- Go strconv.ParseInt(s, 10, 64): optional sign, decimal digits, and the
64-bit signed range check. -/
def parseInt64 : GoStr → Option Int
  | '+' :: rest =>
    (match parseDigits rest with
     | some n => if n ≤ 2 ^ 63 - 1 then some (n : Int) else none
     | none => none)
  | '-' :: rest =>
    (match parseDigits rest with
     | some n => if n ≤ 2 ^ 63 then some (-(n : Int)) else none
     | none => none)
  | s =>
    (match parseDigits s with
     | some n => if n ≤ 2 ^ 63 - 1 then some (n : Int) else none
     | none => none)

/-- Gregorian civil date (year, month) from a day count relative to
1970-01-01, the standard era-decomposition algorithm; agrees with Go's
time package on the year and month of any Unix instant. -/
def civilFromDays (z0 : Int) : Int × Nat :=
  let z := z0 + 719468
  let era := Int.ediv z 146097
  let doe := z - era * 146097
  let yoe := Int.ediv (doe - Int.ediv doe 1460 + Int.ediv doe 36524 - Int.ediv doe 146096) 365
  let y := yoe + era * 400
  let doy := doe - (365 * yoe + Int.ediv yoe 4 - Int.ediv yoe 100)
  let mp := Int.ediv (5 * doy + 2) 153
  let m := mp + (if mp < 10 then 3 else -9)
  (if m ≤ 2 then y + 1 else y, m.toNat)

/-- Year and month of time.Unix(epoch, 0), local timezone taken as UTC. -/
def unixToYM (epoch : Int) : Int × Nat :=
  civilFromDays (Int.ediv epoch 86400)

def padLeftZeros (w : Nat) (s : GoStr) : GoStr :=
  List.replicate (w - s.length) '0' ++ s

/-- Go's Format verb 2006: the year zero-padded to four characters, a
leading minus sign for negative years. -/
def formatYear (y : Int) : GoStr :=
  (if y < 0 then ['-'] else []) ++ padLeftZeros 4 (Nat.toDigits 10 y.natAbs)

/-- Go's Format verb 01: the month zero-padded to two characters. -/
def formatMonth2 (mo : Nat) : GoStr := padLeftZeros 2 (Nat.toDigits 10 mo)

/-- The Format layout 2006/01 applied to a (year, month) pair. -/
def formatYM (y : Int) (mo : Nat) : GoStr := formatYear y ++ '/' :: formatMonth2 mo

def formatYMPair (ym : Int × Nat) : GoStr := formatYM ym.1 ym.2

/-- extractDateFolder: try ISO-8601 first, then decimal epoch seconds; the
Go function returns an empty string together with an error on failure,
modelled as none. -/
def extractDateFolder (ts : GoStr) : Option GoStr :=
  match parseISO ts with
  | some ym => some (formatYMPair ym)
  | none =>
    match parseInt64 ts with
    | some epoch => some (formatYMPair (unixToYM epoch))
    | none => none

/- ### The path-to-bucket map (myMap) -/

abbrev GoMap := List (GoStr × GoStr)

def lookupA (k : GoStr) : GoMap → Option GoStr
  | [] => none
  | (k1, v) :: rest => if k1 = k then some v else lookupA k rest

/-- Replace the value bound to k, keeping its position. -/
def overwriteA (k v : GoStr) : GoMap → GoMap
  | [] => []
  | (k1, v1) :: rest =>
    if k1 = k then (k, v) :: overwriteA k v rest
    else (k1, v1) :: overwriteA k v rest

/-- Go map assignment myMap[k] = v: overwrite in place when the key is
bound, otherwise add a new binding. -/
def mapInsert (k v : GoStr) (m : GoMap) : GoMap :=
  if (lookupA k m).isSome then overwriteA k v m
  else m ++ [(k, v)]

/-- One value of the sentinel-rewrite loop in processDirectory: a bucket
containing the substring 0001/ is replaced by 2000/ followed by the part
after the first slash. -/
def normalizeBucket (b : GoStr) : GoStr :=
  if containsSub b (gs "0001/") then gs "2000/" ++ (splitOnChar '/' b).getD 1 []
  else b

/-- The sentinel-rewrite loop over the whole map. -/
def normalizePass (m : GoMap) : GoMap :=
  m.map (fun kv => (kv.1, normalizeBucket kv.2))

/- ### Directory scan (getMediaFileList) -/

/-- One event of the recursive filepath.Walk: either the walk function is
handed an error, or a directory entry with its base name, full path and
directory flag. -/
inductive WalkEntry where
  | err : WalkEntry
  | entry : GoStr → GoStr → Bool → WalkEntry
deriving DecidableEq

/-- The walk callback of getMediaFileList, run over the entry sequence with
the two accumulated lists.  Handing the callback an error makes it return
that error, which stops the walk; the lists gathered so far are kept and the
walk error itself is discarded by getMediaFileList. -/
def getMediaFileListAux : List WalkEntry → List GoStr → List GoStr → List GoStr × List GoStr
  | [], js, ms => (js.reverse, ms.reverse)
  | WalkEntry.err :: _, js, ms => (js.reverse, ms.reverse)
  | WalkEntry.entry name path d :: rest, js, ms =>
    if d then getMediaFileListAux rest js ms
    else if extOf name = gs ".json" then
      (if countChar '.' name = 3 then getMediaFileListAux rest (path :: js) ms
       else getMediaFileListAux rest js ms)
    else getMediaFileListAux rest js (path :: ms)

def getMediaFileList (entries : List WalkEntry) : List GoStr × List GoStr :=
  getMediaFileListAux entries [] []

/- ### Sidecar resolution (parseExtractMetadatJsonFileAndAddToMapImage) -/

/-- What the Go loop body observes about one sidecar file: whether opening
and reading it succeeds, and the fields of the PhotoMetadata value after
json.Unmarshal (whose error is ignored, so malformed JSON yields the
zero-valued structure: empty strings). -/
structure SidecarData where
  readable : Bool
  title : GoStr
  photoTakenTs : GoStr
  creationTs : GoStr
deriving DecidableEq

/-- The media path a sidecar resolves to: its parent directory joined with
the title field. -/
def sidecarKey (p : GoStr) (d : SidecarData) : GoStr := joinPath (dirOf p) d.title

/-- Sidecar resolution over the json file list.  Per file: an open or read
failure logs and returns (note: returns from the whole function, dropping
every remaining file, not just this one); otherwise the error of
extractDateFolder on photoTakenTime.timestamp is discarded, leaving the
empty string as the bucket when it is unparsable, and the binding is
written unconditionally.  creationTime.timestamp is never consulted. -/
def parseExtractMetadatJsonFileAndAddToMapImage :
    List (GoStr × SidecarData) → GoMap → GoMap
  | [], m => m
  | (p, d) :: rest, m =>
    if d.readable then
      parseExtractMetadatJsonFileAndAddToMapImage rest
        (mapInsert (sidecarKey p d) ((extractDateFolder d.photoTakenTs).getD []) m)
    else m

/-- Media files whose path is not yet a key of the map. -/
def getMediaFilesWithoutMedtadataJsonFiles (mediaFileList : List GoStr) (m : GoMap) :
    List GoStr :=
  mediaFileList.filter (fun p => (lookupA p m).isNone)

/- ### EXIF fallback resolution
   (parseExtractMediaFilesWithoutMedtadataJsonFileAddToMap) -/

/-- What the Go loop body observes about one media file: whether os.Open
succeeds, whether the opened file stats as a directory, whether
metadata.Parse succeeds, and the DateTimeCreated / DateTimeOriginal fields
as (year, month) pairs — none stands for a zero DateTimeCreated, and the
zero time renders as year 1 month 1. -/
structure ExifData where
  openOk : Bool
  isDir : Bool
  parseOk : Bool
  dateCreated : Option (Int × Nat)
  dateOriginal : Int × Nat
deriving DecidableEq

/-- The timestamp string the fallback resolver assigns: the default
sentinel 0001/01 when metadata parsing fails, otherwise DateTimeCreated
formatted as 2006/01, falling back to DateTimeOriginal when created is
zero. -/
def exifTimestampOf (d : ExifData) : GoStr :=
  if d.parseOk then
    match d.dateCreated with
    | some ym => formatYMPair ym
    | none => formatYMPair d.dateOriginal
  else gs "0001/01"

/-- The fallback resolution loop.  Per file: a .DS_Store extension skips the
file; an open failure prints and returns (again dropping every remaining
file); a directory is skipped; otherwise the timestamp is computed and the
binding written only when the key is absent — an existing binding is kept
and a conflict message printed. -/
def parseExtractMediaFilesWithoutMedtadataJsonFileAddToMap :
    List (GoStr × ExifData) → GoMap → GoMap
  | [], m => m
  | (p, d) :: rest, m =>
    if filepathExt p = gs ".DS_Store" then
      parseExtractMediaFilesWithoutMedtadataJsonFileAddToMap rest m
    else if d.openOk = false then m
    else if d.isDir then parseExtractMediaFilesWithoutMedtadataJsonFileAddToMap rest m
    else
      parseExtractMediaFilesWithoutMedtadataJsonFileAddToMap rest
        (if (lookupA p m).isSome then m else mapInsert p (exifTimestampOf d) m)

/-- The two resolution phases in order: sidecar resolution from the empty
map, then fallback resolution over the media files that got no sidecar
binding. -/
def resolvePhases (sidecars : List (GoStr × SidecarData)) (media : List GoStr)
    (ex : GoStr → ExifData) : GoMap :=
  let m1 := parseExtractMetadatJsonFileAndAddToMapImage sidecars []
  parseExtractMediaFilesWithoutMedtadataJsonFileAddToMap
    ((getMediaFilesWithoutMedtadataJsonFiles media m1).map (fun p => (p, ex p))) m1

/-- processDirectory: scan, resolve sidecars, resolve fallback for the
remainder, then the sentinel-rewrite pass.  File contents are supplied by
the two oracle functions. -/
def processDirectory (entries : List WalkEntry) (sc : GoStr → SidecarData)
    (ex : GoStr → ExifData) : GoMap :=
  let lists := getMediaFileList entries
  let m1 := parseExtractMetadatJsonFileAndAddToMapImage
    (lists.1.map (fun p => (p, sc p))) []
  let m2 := parseExtractMediaFilesWithoutMedtadataJsonFileAddToMap
    ((getMediaFilesWithoutMedtadataJsonFiles lists.2 m1).map (fun p => (p, ex p))) m1
  normalizePass m2

/- ### Directory provisioning (createNestedDirectories) -/

/-- createDirectoryIfNotExists, as a function of the MKCOL response status:
405 (method not allowed) is success, 204 (no content, already exists) is
success, anything other than 201 or 200 is an error, 201 and 200 are
success.  True stands for a nil error. -/
def createDirectoryIfNotExists (status : Nat) : Bool :=
  if status = 405 then true
  else if status = 204 then true
  else if status ≠ 201 ∧ status ≠ 200 then false
  else true

/-- The segment loop of createNestedDirectories: empty parts are skipped,
each remaining part extends the current path, one creation call is issued
per extended path, and the first failing call stops the loop with an
error.  Returns the list of requested collection paths in order and
whether every call succeeded. -/
def createNestedAux (statusOf : GoStr → Nat) : List GoStr → GoStr → List GoStr × Bool
  | [], _ => ([], true)
  | part :: rest, cur =>
    if part = [] then createNestedAux statusOf rest cur
    else
      let cur1 := cur ++ '/' :: part
      if createDirectoryIfNotExists (statusOf cur1) then
        let r := createNestedAux statusOf rest cur1
        (cur1 :: r.1, r.2)
      else ([cur1], false)

def createNestedDirectories (statusOf : GoStr → Nat) (baseURL subFolder : GoStr) :
    List GoStr × Bool :=
  createNestedAux statusOf (splitOnChar '/' subFolder) baseURL

/-- Specification-side description of the provisioning request sequence:
the cumulative parent-before-child segment paths of a bucket. -/
def specSegmentPathsAux : List GoStr → GoStr → List GoStr
  | [], _ => []
  | part :: rest, cur =>
    if part = [] then specSegmentPathsAux rest cur
    else (cur ++ '/' :: part) :: specSegmentPathsAux rest (cur ++ '/' :: part)

def specSegmentPaths (baseURL subFolder : GoStr) : List GoStr :=
  specSegmentPathsAux (splitOnChar '/' subFolder) baseURL

/-- Each path in the list is a prefix of the next: parents precede
children. -/
def parentBeforeChild : List GoStr → Prop
  | [] => True
  | [_] => True
  | a :: b :: t => isPrefixOfB a b = true ∧ parentBeforeChild (b :: t)

/- ### File upload (uploadFile, worker) -/

/-- What one loop iteration of uploadFile observes: os.Open failing,
http.NewRequest failing, client.Do failing, or an HTTP response status. -/
inductive AttemptOutcome where
  | openErr : AttemptOutcome
  | reqErr : AttemptOutcome
  | doErr : AttemptOutcome
  | status : Nat → AttemptOutcome
deriving DecidableEq

inductive UploadResult where
  | ok : UploadResult
  | err : UploadResult
deriving DecidableEq

/-- The two process-lifetime counters. -/
structure Counters where
  successfullCounter : Nat
  failedCounter : Nat
deriving DecidableEq

def incSucc (c : Counters) : Counters :=
  { c with successfullCounter := c.successfullCounter + 1 }

def incFail (c : Counters) : Counters :=
  { c with failedCounter := c.failedCounter + 1 }

/-- The retry loop of uploadFile (retryCount = 3): per attempt, a failure
before any response returns the error with neither counter touched;
status 201, 200 or 204 increments the success counter and returns nil;
status 404 or 504 sleeps and retries; any other status increments the
failure counter and returns an error.  When all attempts are exhausted the
failure counter is incremented once. -/
def uploadLoop (out : Nat → AttemptOutcome) (attempt : Nat) (c : Counters) :
    UploadResult × Counters :=
  if _h : attempt ≤ 3 then
    match out attempt with
    | AttemptOutcome.openErr => (UploadResult.err, c)
    | AttemptOutcome.reqErr => (UploadResult.err, c)
    | AttemptOutcome.doErr => (UploadResult.err, c)
    | AttemptOutcome.status code =>
      if code = 201 ∨ code = 200 then (UploadResult.ok, incSucc c)
      else if code = 204 then (UploadResult.ok, incSucc c)
      else if code = 404 ∨ code = 504 then uploadLoop out (attempt + 1) c
      else (UploadResult.err, incFail c)
  else (UploadResult.err, incFail c)
termination_by 4 - attempt
decreasing_by omega

def uploadFile (out : Nat → AttemptOutcome) (c : Counters) : UploadResult × Counters :=
  uploadLoop out 1 c

/-- The upload worker: drains its job queue, uploading each file and
sending one progress unit per job whatever the upload result was.  Returns
the number of progress units sent and the final counters. -/
def worker : List (Nat → AttemptOutcome) → Counters → Nat × Counters
  | [], c => (0, c)
  | u :: rest, c =>
    let r := uploadFile u c
    let w := worker rest r.2
    (w.1 + 1, w.2)

/- ### Phase ordering of uploadMediaFilesToNextcloud -/

/-- The program counter of the main goroutine of
uploadMediaFilesToNextcloud: before wgDir.Wait() returns, or after (when
upload workers are spawned and upload jobs sent). -/
inductive MainPC where
  | dirPhase : MainPC
  | uploadPhase : MainPC
deriving DecidableEq

/-- Abstract interleaving state of one run of uploadMediaFilesToNextcloud:
how many submitted directory jobs have not yet reached a terminal state
(the wgDir counter), how many have (success or logged failure, since a
worker calls wgDir.Done() after handling the error), the main goroutine's
position, and how many upload requests have been issued. -/
structure RunState where
  dirsRemaining : Nat
  dirsDone : Nat
  pc : MainPC
  uploadsIssued : Nat
deriving DecidableEq

def initState (n : Nat) : RunState :=
  { dirsRemaining := n, dirsDone := 0, pc := MainPC.dirPhase, uploadsIssued := 0 }

/-- One interleaving step: a directory worker brings one job to a terminal
state and calls wgDir.Done(); wgDir.Wait() returns in the main goroutine,
which the WaitGroup permits only once the counter is zero; or an upload
worker issues an upload request, which exists only after the main
goroutine has passed the barrier (workers are spawned and jobs sent only
after Wait). -/
inductive RunStep : RunState → RunState → Prop where
  | dirJobTerminal (r d : Nat) (pc : MainPC) (u : Nat) :
      RunStep { dirsRemaining := r + 1, dirsDone := d, pc := pc, uploadsIssued := u }
        { dirsRemaining := r, dirsDone := d + 1, pc := pc, uploadsIssued := u }
  | waitReturns (d u : Nat) :
      RunStep { dirsRemaining := 0, dirsDone := d, pc := MainPC.dirPhase, uploadsIssued := u }
        { dirsRemaining := 0, dirsDone := d, pc := MainPC.uploadPhase, uploadsIssued := u }
  | uploadIssued (r d u : Nat) :
      RunStep { dirsRemaining := r, dirsDone := d, pc := MainPC.uploadPhase, uploadsIssued := u }
        { dirsRemaining := r, dirsDone := d, pc := MainPC.uploadPhase, uploadsIssued := u + 1 }

/-- Reachability along interleaving steps. -/
inductive RunReachable (s0 : RunState) : RunState → Prop where
  | refl : RunReachable s0 s0
  | tail {s t : RunState} : RunReachable s0 s → RunStep s t → RunReachable s0 t


/- ### Predicates and selectors used in the claim statements -/

/-- Replacing creationTime.timestamp in a sidecar record. -/
def setCreationTs (d : SidecarData) (ts : GoStr) : SidecarData :=
  { d with creationTs := ts }

/-- Specification-side classification of one walk entry as a sidecar: a
regular file whose extension is .json and whose name has exactly three
dots. -/
def specSidecarSel : WalkEntry → Option GoStr
  | WalkEntry.err => none
  | WalkEntry.entry name path d =>
    if d = false ∧ extOf name = gs ".json" ∧ countChar '.' name = 3 then some path
    else none

/-- Specification-side classification of one walk entry as raw media: a
regular file whose extension is not .json. -/
def specRawMediaSel : WalkEntry → Option GoStr
  | WalkEntry.err => none
  | WalkEntry.entry name path d =>
    if d = false ∧ extOf name ≠ gs ".json" then some path else none

/-- A transient response status of the upload loop: not-found or
gateway-timeout. -/
def isTransient (o : AttemptOutcome) : Prop :=
  o = AttemptOutcome.status 404 ∨ o = AttemptOutcome.status 504

/-- A success response status of the upload loop. -/
def isSuccessStatus (o : AttemptOutcome) : Prop :=
  o = AttemptOutcome.status 200 ∨ o = AttemptOutcome.status 201 ∨
    o = AttemptOutcome.status 204

/-- A response status of the upload loop that is neither success-class nor
transient-class. -/
def isHardStatus (o : AttemptOutcome) : Prop :=
  ∃ v, o = AttemptOutcome.status v ∧ v ≠ 200 ∧ v ≠ 201 ∧ v ≠ 204 ∧ v ≠ 404 ∧ v ≠ 504

/-- A failure of one upload attempt before any HTTP status is received:
the local file cannot be opened, the request cannot be constructed, or the
transport errors. -/
def preStatusFailure (o : AttemptOutcome) : Prop :=
  o = AttemptOutcome.openErr ∨ o = AttemptOutcome.reqErr ∨ o = AttemptOutcome.doErr

/- ### Association-list map lemmas -/

theorem lookupA_append (k : GoStr) (m1 m2 : GoMap) :
    lookupA k (m1 ++ m2) =
      match lookupA k m1 with
      | some v => some v
      | none => lookupA k m2 := by
  induction m1 with
  | nil => simp [lookupA]
  | cons kv rest ih =>
    obtain ⟨k1, v1⟩ := kv
    by_cases h : k1 = k <;> simp [lookupA, h, ih]

theorem lookupA_overwriteA_self (k v : GoStr) (m : GoMap) :
    lookupA k (overwriteA k v m) = if (lookupA k m).isSome then some v else none := by
  induction m with
  | nil => simp [lookupA, overwriteA]
  | cons kv rest ih =>
    obtain ⟨k1, v1⟩ := kv
    by_cases h : k1 = k
    · subst h
      simp [lookupA, overwriteA]
    · simp [lookupA, overwriteA, h, ih]

theorem lookupA_overwriteA_ne (k v k1 : GoStr) (m : GoMap) (h : k1 ≠ k) :
    lookupA k1 (overwriteA k v m) = lookupA k1 m := by
  induction m with
  | nil => simp [overwriteA]
  | cons kv rest ih =>
    obtain ⟨ka, va⟩ := kv
    by_cases hk : ka = k
    · subst hk
      simp [lookupA, overwriteA, Ne.symm h, ih]
    · by_cases hk1 : ka = k1 <;> simp [lookupA, overwriteA, hk, hk1, h, ih]

theorem overwriteA_keys (k v : GoStr) (m : GoMap) :
    (overwriteA k v m).map Prod.fst = m.map Prod.fst := by
  induction m with
  | nil => simp [overwriteA]
  | cons kv rest ih =>
    obtain ⟨k1, v1⟩ := kv
    by_cases h : k1 = k
    · subst h
      simp [overwriteA, ih]
    · simp [overwriteA, h, ih]

theorem lookupA_mapInsert_self (k v : GoStr) (m : GoMap) :
    lookupA k (mapInsert k v m) = some v := by
  unfold mapInsert
  by_cases h : (lookupA k m).isSome
  · simp [h, lookupA_overwriteA_self]
  · rw [if_neg h, lookupA_append]
    rw [Option.not_isSome_iff_eq_none] at h
    simp [h, lookupA]

theorem lookupA_mapInsert_ne (k v k1 : GoStr) (m : GoMap) (h : k1 ≠ k) :
    lookupA k1 (mapInsert k v m) = lookupA k1 m := by
  unfold mapInsert
  by_cases hs : (lookupA k m).isSome
  · simp [hs, lookupA_overwriteA_ne _ _ _ _ h]
  · rw [if_neg hs, lookupA_append]
    cases hv : lookupA k1 m <;> simp [lookupA, h, Ne.symm h]

theorem lookupA_none_iff (k : GoStr) (m : GoMap) :
    lookupA k m = none ↔ k ∉ m.map Prod.fst := by
  induction m with
  | nil => simp [lookupA]
  | cons kv rest ih =>
    obtain ⟨k1, v1⟩ := kv
    by_cases h : k1 = k
    · subst h
      simp [lookupA]
    · rw [lookupA, if_neg h]
      simp [ih, Ne.symm h]

theorem mapInsert_keys_nodup (k v : GoStr) (m : GoMap)
    (h : (m.map Prod.fst).Nodup) : ((mapInsert k v m).map Prod.fst).Nodup := by
  unfold mapInsert
  by_cases hs : (lookupA k m).isSome
  · rw [if_pos hs, overwriteA_keys]
    exact h
  · rw [if_neg hs]
    rw [Option.not_isSome_iff_eq_none, lookupA_none_iff] at hs
    simp [List.nodup_append, h, hs]

theorem lookupA_normalizePass (k : GoStr) (m : GoMap) :
    lookupA k (normalizePass m) = (lookupA k m).map normalizeBucket := by
  induction m with
  | nil => simp [normalizePass, lookupA]
  | cons kv rest ih =>
    obtain ⟨k1, v1⟩ := kv
    by_cases h : k1 = k
    · subst h
      simp [normalizePass, lookupA]
    · rw [normalizePass, List.map_cons, lookupA, if_neg h, lookupA, if_neg h]
      simpa [normalizePass] using ih

/- ### Bucket nonemptiness -/

theorem formatYM_ne_nil (y : Int) (mo : Nat) : formatYM y mo ≠ [] := by
  simp [formatYM]

theorem formatYMPair_ne_nil (ym : Int × Nat) : formatYMPair ym ≠ [] :=
  formatYM_ne_nil ym.1 ym.2

theorem extractDateFolder_ne_nil (ts s : GoStr) (h : extractDateFolder ts = some s) :
    s ≠ [] := by
  unfold extractDateFolder at h
  cases hiso : parseISO ts with
  | some ym =>
    rw [hiso] at h
    cases h
    exact formatYMPair_ne_nil ym
  | none =>
    rw [hiso] at h
    cases hep : parseInt64 ts with
    | some e =>
      rw [hep] at h
      cases h
      exact formatYMPair_ne_nil _
    | none => rw [hep] at h; cases h

theorem exifTimestampOf_ne_nil (d : ExifData) : exifTimestampOf d ≠ [] := by
  unfold exifTimestampOf
  by_cases hp : d.parseOk
  · rw [if_pos hp]
    cases d.dateCreated with
    | some ym => exact formatYMPair_ne_nil ym
    | none => exact formatYMPair_ne_nil _
  · rw [if_neg hp]
    decide

/- ### Sidecar-phase lemmas -/

theorem setCreationTs_readable (d : SidecarData) (ts : GoStr) :
    (setCreationTs d ts).readable = d.readable := rfl

theorem setCreationTs_title (d : SidecarData) (ts : GoStr) :
    (setCreationTs d ts).title = d.title := rfl

theorem setCreationTs_photoTakenTs (d : SidecarData) (ts : GoStr) :
    (setCreationTs d ts).photoTakenTs = d.photoTakenTs := rfl

theorem sidecar_ignores_creation (g : GoStr × SidecarData → GoStr)
    (l : List (GoStr × SidecarData)) (m : GoMap) :
    parseExtractMetadatJsonFileAndAddToMapImage
        (l.map (fun pd => (pd.1, setCreationTs pd.2 (g pd)))) m =
      parseExtractMetadatJsonFileAndAddToMapImage l m := by
  induction l generalizing m with
  | nil => rfl
  | cons pd rest ih =>
    obtain ⟨p, d⟩ := pd
    by_cases h : d.readable <;>
      simp [parseExtractMetadatJsonFileAndAddToMapImage, sidecarKey, h,
        setCreationTs_readable, setCreationTs_title, setCreationTs_photoTakenTs, ih]

theorem sidecar_lookup_provenance (l : List (GoStr × SidecarData)) (m : GoMap)
    (k v : GoStr)
    (h : lookupA k (parseExtractMetadatJsonFileAndAddToMapImage l m) = some v) :
    lookupA k m = some v ∨
      ∃ pd ∈ l, sidecarKey pd.1 pd.2 = k ∧
        v = (extractDateFolder pd.2.photoTakenTs).getD [] := by
  induction l generalizing m with
  | nil => exact Or.inl h
  | cons pd rest ih =>
    obtain ⟨p, d⟩ := pd
    by_cases hr : d.readable
    · rw [parseExtractMetadatJsonFileAndAddToMapImage, if_pos hr] at h
      rcases ih _ h with hm | ⟨qd, hmem, hk, hv⟩
      · by_cases hkey : sidecarKey p d = k
        · subst hkey
          rw [lookupA_mapInsert_self] at hm
          cases hm
          exact Or.inr ⟨(p, d), List.mem_cons_self _ _, rfl, rfl⟩
        · rw [lookupA_mapInsert_ne _ _ _ _ (fun he => hkey he.symm)] at hm
          exact Or.inl hm
      · exact Or.inr ⟨qd, List.mem_cons_of_mem _ hmem, hk, hv⟩
    · rw [parseExtractMetadatJsonFileAndAddToMapImage, if_neg hr] at h
      exact Or.inl h

theorem sidecar_nodup (l : List (GoStr × SidecarData)) (m : GoMap)
    (h : (m.map Prod.fst).Nodup) :
    ((parseExtractMetadatJsonFileAndAddToMapImage l m).map Prod.fst).Nodup := by
  induction l generalizing m with
  | nil => exact h
  | cons pd rest ih =>
    obtain ⟨p, d⟩ := pd
    by_cases hr : d.readable
    · rw [parseExtractMetadatJsonFileAndAddToMapImage, if_pos hr]
      exact ih _ (mapInsert_keys_nodup _ _ _ h)
    · rw [parseExtractMetadatJsonFileAndAddToMapImage, if_neg hr]
      exact h

theorem sidecar_last_write (pre : List (GoStr × SidecarData)) (p : GoStr)
    (d : SidecarData) (m : GoMap)
    (hpre : ∀ q ∈ pre, (q : GoStr × SidecarData).2.readable = true)
    (hd : d.readable = true) :
    lookupA (sidecarKey p d)
        (parseExtractMetadatJsonFileAndAddToMapImage (pre ++ [(p, d)]) m) =
      some ((extractDateFolder d.photoTakenTs).getD []) := by
  induction pre generalizing m with
  | nil =>
    rw [List.nil_append, parseExtractMetadatJsonFileAndAddToMapImage, if_pos hd,
      parseExtractMetadatJsonFileAndAddToMapImage]
    exact lookupA_mapInsert_self _ _ _
  | cons q rest ih =>
    rw [List.cons_append, parseExtractMetadatJsonFileAndAddToMapImage,
      if_pos (hpre q (List.mem_cons_self _ _))]
    exact ih _ (fun r hr => hpre r (List.mem_cons_of_mem _ hr))

/- ### Fallback-phase lemmas -/

theorem exif_preserves (l : List (GoStr × ExifData)) (m : GoMap) (k v : GoStr)
    (h : lookupA k m = some v) :
    lookupA k (parseExtractMediaFilesWithoutMedtadataJsonFileAddToMap l m) = some v := by
  induction l generalizing m with
  | nil => exact h
  | cons pd rest ih =>
    obtain ⟨p, d⟩ := pd
    rw [parseExtractMediaFilesWithoutMedtadataJsonFileAddToMap]
    by_cases h1 : filepathExt p = gs ".DS_Store"
    · rw [if_pos h1]; exact ih _ h
    · rw [if_neg h1]
      by_cases h2 : d.openOk = false
      · rw [if_pos h2]; exact h
      · rw [if_neg h2]
        by_cases h3 : d.isDir
        · rw [if_pos h3]; exact ih _ h
        · rw [if_neg h3]
          apply ih
          by_cases h4 : (lookupA p m).isSome
          · rw [if_pos h4]; exact h
          · rw [if_neg h4]
            have hk : k ≠ p := by
              intro he
              subst he
              rw [Option.not_isSome_iff_eq_none] at h4
              rw [h4] at h
              cases h
            rw [lookupA_mapInsert_ne _ _ _ _ hk]
            exact h

theorem exif_lookup_provenance (l : List (GoStr × ExifData)) (m : GoMap) (k v : GoStr)
    (h : lookupA k (parseExtractMediaFilesWithoutMedtadataJsonFileAddToMap l m) = some v) :
    lookupA k m = some v ∨ ∃ pd ∈ l, pd.1 = k ∧ v = exifTimestampOf pd.2 := by
  induction l generalizing m with
  | nil => exact Or.inl h
  | cons pd rest ih =>
    obtain ⟨p, d⟩ := pd
    rw [parseExtractMediaFilesWithoutMedtadataJsonFileAddToMap] at h
    by_cases h1 : filepathExt p = gs ".DS_Store"
    · rw [if_pos h1] at h
      rcases ih _ h with hm | ⟨qd, hmem, hk, hv⟩
      · exact Or.inl hm
      · exact Or.inr ⟨qd, List.mem_cons_of_mem _ hmem, hk, hv⟩
    · rw [if_neg h1] at h
      by_cases h2 : d.openOk = false
      · rw [if_pos h2] at h
        exact Or.inl h
      · rw [if_neg h2] at h
        by_cases h3 : d.isDir
        · rw [if_pos h3] at h
          rcases ih _ h with hm | ⟨qd, hmem, hk, hv⟩
          · exact Or.inl hm
          · exact Or.inr ⟨qd, List.mem_cons_of_mem _ hmem, hk, hv⟩
        · rw [if_neg h3] at h
          rcases ih _ h with hm | ⟨qd, hmem, hk, hv⟩
          · by_cases h4 : (lookupA p m).isSome
            · rw [if_pos h4] at hm
              exact Or.inl hm
            · rw [if_neg h4] at hm
              by_cases hk : k = p
              · subst hk
                rw [lookupA_mapInsert_self] at hm
                cases hm
                exact Or.inr ⟨(k, d), List.mem_cons_self _ _, rfl, rfl⟩
              · rw [lookupA_mapInsert_ne _ _ _ _ hk] at hm
                exact Or.inl hm
          · exact Or.inr ⟨qd, List.mem_cons_of_mem _ hmem, hk, hv⟩

theorem exif_nodup (l : List (GoStr × ExifData)) (m : GoMap)
    (h : (m.map Prod.fst).Nodup) :
    ((parseExtractMediaFilesWithoutMedtadataJsonFileAddToMap l m).map Prod.fst).Nodup := by
  induction l generalizing m with
  | nil => exact h
  | cons pd rest ih =>
    obtain ⟨p, d⟩ := pd
    rw [parseExtractMediaFilesWithoutMedtadataJsonFileAddToMap]
    by_cases h1 : filepathExt p = gs ".DS_Store"
    · rw [if_pos h1]; exact ih _ h
    · rw [if_neg h1]
      by_cases h2 : d.openOk = false
      · rw [if_pos h2]; exact h
      · rw [if_neg h2]
        by_cases h3 : d.isDir
        · rw [if_pos h3]; exact ih _ h
        · rw [if_neg h3]
          apply ih
          by_cases h4 : (lookupA p m).isSome
          · rw [if_pos h4]; exact h
          · rw [if_neg h4]; exact mapInsert_keys_nodup _ _ _ h

/- ### Substring lemmas for the sentinel rewrite -/

theorem containsChar_of_isPrefixOfB (c : Char) (p s : GoStr)
    (hp : isPrefixOfB p s = true) (hc : containsChar c p = true) :
    containsChar c s = true := by
  induction p generalizing s with
  | nil => cases hc
  | cons a ps ih =>
    cases s with
    | nil => cases hp
    | cons b ss =>
      rw [isPrefixOfB] at hp
      by_cases hab : a = b
      · rw [if_pos hab] at hp
        rw [containsChar] at hc
        by_cases hac : a = c
        · rw [containsChar, if_pos (hab ▸ hac)]
        · rw [if_neg hac] at hc
          rw [containsChar]
          by_cases hbc : b = c
          · rw [if_pos hbc]
          · rw [if_neg hbc]
            exact ih ss hp hc
      · rw [if_neg hab] at hp
        cases hp

theorem containsChar_cons_false (c a : Char) (rest : GoStr)
    (h : containsChar c (a :: rest) = false) : a ≠ c ∧ containsChar c rest = false := by
  rw [containsChar] at h
  by_cases hac : a = c
  · rw [if_pos hac] at h
    cases h
  · rw [if_neg hac] at h
    exact ⟨hac, h⟩

theorem containsSub_of_missing_char (c : Char) (s pat : GoStr)
    (hc : containsChar c pat = true) (hs : containsChar c s = false) :
    containsSub s pat = false := by
  induction s with
  | nil =>
    cases pat with
    | nil => cases hc
    | cons a ps => rfl
  | cons a rest ih =>
    obtain ⟨hac, hrest⟩ := containsChar_cons_false c a rest hs
    rw [containsSub]
    by_cases hp : isPrefixOfB pat (a :: rest) = true
    · have := containsChar_of_isPrefixOfB c pat (a :: rest) hp hc
      rw [containsChar, if_neg hac, hrest] at this
      cases this
    · rw [if_neg hp]
      exact ih hrest

theorem isPrefixOfB_sep (pat q y m : GoStr) (hpat : containsChar '/' pat = false)
    (hy : containsChar '/' y = false) :
    (isPrefixOfB (pat ++ '/' :: q) (y ++ '/' :: m) = true) ↔
      (y = pat ∧ isPrefixOfB q m = true) := by
  induction pat generalizing y with
  | nil =>
    cases y with
    | nil => simp [isPrefixOfB]
    | cons b y2 =>
      obtain ⟨hb, _⟩ := containsChar_cons_false '/' b y2 hy
      simp [isPrefixOfB, Ne.symm hb]
  | cons a pat2 ih =>
    obtain ⟨ha, hpat2⟩ := containsChar_cons_false '/' a pat2 hpat
    cases y with
    | nil => simp [isPrefixOfB, ha]
    | cons b y2 =>
      obtain ⟨hb, hy2⟩ := containsChar_cons_false '/' b y2 hy
      by_cases hab : a = b
      · subst hab
        rw [List.cons_append, List.cons_append, isPrefixOfB, if_pos rfl, ih y2 hpat2 hy2]
        simp
      · rw [List.cons_append, List.cons_append, isPrefixOfB, if_neg hab]
        simp only [Bool.false_eq_true, false_iff]
        intro h
        obtain ⟨h1, -⟩ := h
        rw [List.cons.injEq] at h1
        exact hab h1.1.symm

theorem prefix_0001_slash (y m : GoStr) (hy : containsChar '/' y = false) :
    (isPrefixOfB (gs "0001/") (y ++ '/' :: m) = true) ↔ y = gs "0001" := by
  have e : gs "0001/" = gs "0001" ++ '/' :: ([] : GoStr) := by decide
  rw [e, isPrefixOfB_sep (gs "0001") [] y m (by decide) hy]
  simp [isPrefixOfB]

theorem containsSub_sep (y m : GoStr) (hy : containsChar '/' y = false)
    (hm : containsChar '/' m = false) :
    (containsSub (y ++ '/' :: m) (gs "0001/") = true) ↔
      hasSuffixB y (gs "0001") = true := by
  induction y with
  | nil =>
    rw [List.nil_append, containsSub]
    have hpre : isPrefixOfB (gs "0001/") ('/' :: m) = false := by
      show isPrefixOfB ('0' :: '0' :: '0' :: '1' :: '/' :: []) ('/' :: m) = false
      rw [isPrefixOfB, if_neg (by decide)]
    rw [hpre]
    have hsub : containsSub m (gs "0001/") = false :=
      containsSub_of_missing_char '/' m (gs "0001/") (by decide) hm
    rw [if_neg (by simp), hsub, hasSuffixB, if_neg (by decide)]
  | cons a y2 ih =>
    obtain ⟨_, hy2⟩ := containsChar_cons_false '/' a y2 hy
    rw [List.cons_append, containsSub]
    by_cases heq : a :: y2 = gs "0001"
    · have hpre : isPrefixOfB (gs "0001/") ((a :: y2) ++ '/' :: m) = true :=
        (prefix_0001_slash (a :: y2) m hy).mpr heq
      rw [List.cons_append] at hpre
      rw [hpre, if_pos rfl, hasSuffixB, if_pos heq]
    · have hpre : isPrefixOfB (gs "0001/") ((a :: y2) ++ '/' :: m) = false := by
        rw [Bool.eq_false_iff]
        intro hcontra
        exact heq ((prefix_0001_slash (a :: y2) m hy).mp hcontra)
      rw [List.cons_append] at hpre
      rw [hpre, if_neg (by simp), ih hy2, hasSuffixB, if_neg heq]

theorem splitOnChar_sep (y r : GoStr) (hy : containsChar '/' y = false) :
    splitOnChar '/' (y ++ '/' :: r) = y :: splitOnChar '/' r := by
  induction y with
  | nil =>
    rw [List.nil_append, splitOnChar, if_pos rfl]
  | cons a y2 ih =>
    obtain ⟨ha, hy2⟩ := containsChar_cons_false '/' a y2 hy
    rw [List.cons_append, splitOnChar, if_neg ha, ih hy2]

theorem splitOnChar_noslash (m : GoStr) (hm : containsChar '/' m = false) :
    splitOnChar '/' m = [m] := by
  induction m with
  | nil => rfl
  | cons a m2 ih =>
    obtain ⟨ha, hm2⟩ := containsChar_cons_false '/' a m2 hm
    rw [splitOnChar, if_neg ha, ih hm2]

theorem normalizeBucket_sep (y m : GoStr) (hy : containsChar '/' y = false)
    (hm : containsChar '/' m = false) :
    normalizeBucket (y ++ '/' :: m) =
      if hasSuffixB y (gs "0001") = true then gs "2000/" ++ m else y ++ '/' :: m := by
  rw [normalizeBucket]
  by_cases h : hasSuffixB y (gs "0001") = true
  · rw [if_pos ((containsSub_sep y m hy hm).mpr h), if_pos h,
      splitOnChar_sep y m hy, splitOnChar_noslash m hm]
    rfl
  · rw [if_neg h]
    rw [if_neg (fun hc => h ((containsSub_sep y m hy hm).mp hc))]

theorem hasSuffixB_short (s p : GoStr) (h : s.length < p.length) :
    hasSuffixB s p = false := by
  induction s with
  | nil =>
    rw [hasSuffixB]
    rw [if_neg]
    intro he
    rw [he] at h
    simp at h
  | cons a s2 ih =>
    rw [hasSuffixB]
    rw [if_neg]
    · exact ih (by simp at h ⊢; omega)
    · intro he
      rw [he] at h
      omega

theorem hasSuffixB_len4 (y : GoStr) (h : y.length = 4) :
    (hasSuffixB y (gs "0001") = true) ↔ y = gs "0001" := by
  cases y with
  | nil => simp at h
  | cons a y2 =>
    rw [hasSuffixB]
    by_cases he : a :: y2 = gs "0001"
    · rw [if_pos he]
      simp [he]
    · rw [if_neg he]
      have : y2.length < (gs "0001").length := by
        simp at h
        simp [gs]
        omega
      rw [hasSuffixB_short y2 (gs "0001") this]
      simp [he]

/- ### Directory-provisioning lemmas -/

theorem isPrefixOfB_append_self (s t : GoStr) : isPrefixOfB s (s ++ t) = true := by
  induction s with
  | nil => rfl
  | cons a s2 ih => rw [List.cons_append, isPrefixOfB, if_pos rfl, ih]

theorem specSegmentPathsAux_head (parts : List GoStr) (cur y : GoStr) (l : List GoStr)
    (h : specSegmentPathsAux parts cur = y :: l) : isPrefixOfB cur y = true := by
  induction parts generalizing cur with
  | nil => cases h
  | cons part rest ih =>
    rw [specSegmentPathsAux] at h
    by_cases hp : part = []
    · rw [if_pos hp] at h
      exact ih cur h
    · rw [if_neg hp] at h
      rw [List.cons.injEq] at h
      rw [← h.1]
      exact isPrefixOfB_append_self cur ('/' :: part)

theorem specSegmentPathsAux_chain (parts : List GoStr) (cur : GoStr) :
    parentBeforeChild (specSegmentPathsAux parts cur) := by
  induction parts generalizing cur with
  | nil => trivial
  | cons part rest ih =>
    rw [specSegmentPathsAux]
    by_cases hp : part = []
    · rw [if_pos hp]
      exact ih cur
    · rw [if_neg hp]
      cases hrest : specSegmentPathsAux rest (cur ++ '/' :: part) with
      | nil => trivial
      | cons y l =>
        refine ⟨?_, ?_⟩
        · have h1 := specSegmentPathsAux_head rest (cur ++ '/' :: part) y l hrest
          exact h1
        · rw [← hrest]
          exact ih (cur ++ '/' :: part)

theorem createNestedAux_success (statusOf : GoStr → Nat)
    (hall : ∀ p : GoStr, createDirectoryIfNotExists (statusOf p) = true)
    (parts : List GoStr) (cur : GoStr) :
    createNestedAux statusOf parts cur = (specSegmentPathsAux parts cur, true) := by
  induction parts generalizing cur with
  | nil => rfl
  | cons part rest ih =>
    rw [createNestedAux, specSegmentPathsAux]
    by_cases hp : part = []
    · rw [if_pos hp, if_pos hp]
      exact ih cur
    · rw [if_neg hp, if_neg hp, if_pos (hall (cur ++ '/' :: part)), ih (cur ++ '/' :: part)]

theorem createDirectoryIfNotExists_iff (s : Nat) :
    createDirectoryIfNotExists s = true ↔ (s = 200 ∨ s = 201 ∨ s = 204 ∨ s = 405) := by
  rw [createDirectoryIfNotExists]
  by_cases h1 : s = 405
  · simp [h1]
  · rw [if_neg h1]
    by_cases h2 : s = 204
    · simp [h2]
    · rw [if_neg h2]
      by_cases h3 : s ≠ 201 ∧ s ≠ 200
      · rw [if_pos h3]
        simp [h1, h2, h3.1, h3.2]
      · rw [if_neg h3]
        rw [Classical.not_and_iff_or_not_not] at h3
        rcases h3 with h3 | h3 <;> simp at h3 <;> simp [h3]

/- ### Scanner lemmas -/

theorem getMediaFileListAux_err (pre post : List WalkEntry) (js ms : List GoStr) :
    getMediaFileListAux (pre ++ WalkEntry.err :: post) js ms =
      getMediaFileListAux pre js ms := by
  induction pre generalizing js ms with
  | nil => rfl
  | cons e rest ih =>
    cases e with
    | err => rfl
    | entry n p d =>
      by_cases h1 : d
      · simp [getMediaFileListAux, h1, ih]
      · by_cases h2 : extOf n = gs ".json"
        · by_cases h3 : countChar '.' n = 3 <;>
            simp [getMediaFileListAux, h1, h2, h3, ih]
        · simp [getMediaFileListAux, h1, h2, ih]

theorem getMediaFileListAux_classify (entries : List WalkEntry) (js ms : List GoStr)
    (h : ∀ e ∈ entries, e ≠ WalkEntry.err) :
    getMediaFileListAux entries js ms =
      (js.reverse ++ entries.filterMap specSidecarSel,
        ms.reverse ++ entries.filterMap specRawMediaSel) := by
  induction entries generalizing js ms with
  | nil => simp [getMediaFileListAux]
  | cons e rest ih =>
    have hrest : ∀ x ∈ rest, x ≠ WalkEntry.err :=
      fun x hx => h x (List.mem_cons_of_mem _ hx)
    cases e with
    | err => exact absurd rfl (h WalkEntry.err (List.mem_cons_self _ _))
    | entry n p d =>
      by_cases h1 : d
      · simp [getMediaFileListAux, specSidecarSel, specRawMediaSel, h1, ih _ _ hrest]
      · by_cases h2 : extOf n = gs ".json"
        · by_cases h3 : countChar '.' n = 3 <;>
            simp [getMediaFileListAux, specSidecarSel, specRawMediaSel, h1, h2, h3,
              ih _ _ hrest]
        · simp [getMediaFileListAux, specSidecarSel, specRawMediaSel, h1, h2,
            ih _ _ hrest]

/- ### Upload lemmas -/

theorem uploadFile_preStatusFailure (out : Nat → AttemptOutcome) (c : Counters)
    (h : preStatusFailure (out 1)) : uploadFile out c = (UploadResult.err, c) := by
  rcases h with h | h | h <;> rw [uploadFile, uploadLoop] <;> simp [h]

/- ### Phase-barrier invariant -/

theorem runReachable_invariant (n : Nat) (s : RunState)
    (h : RunReachable (initState n) s) :
    s.dirsRemaining + s.dirsDone = n ∧
      (s.pc = MainPC.uploadPhase → s.dirsRemaining = 0) ∧
      (0 < s.uploadsIssued → s.pc = MainPC.uploadPhase) := by
  induction h with
  | refl => simp [initState]
  | tail hreach hstep ih =>
    obtain ⟨h1, h2, h3⟩ := ih
    cases hstep with
    | dirJobTerminal r d pc u =>
      dsimp only at h1 h2 h3 ⊢
      refine ⟨by omega, ?_, h3⟩
      intro hpc
      have := h2 hpc
      omega
    | waitReturns d u =>
      exact ⟨h1, fun _ => rfl, fun _ => rfl⟩
    | uploadIssued r d u =>
      exact ⟨h1, h2, fun _ => rfl⟩

/- ### Claims -/

/-- C1 (amended): for every readable sidecar, a binding is always written:
the bucket is photoTakenTime.timestamp's parse when one of the two formats
accepts it and the empty string otherwise; creationTime.timestamp is never
consulted (the whole phase is invariant under rewriting it), and no record
is dropped. -/
theorem claim_C1 (g : GoStr × SidecarData → GoStr) (l : List (GoStr × SidecarData))
    (m : GoMap) :
    parseExtractMetadatJsonFileAndAddToMapImage
        (l.map (fun pd => (pd.1, setCreationTs pd.2 (g pd)))) m =
      parseExtractMetadatJsonFileAndAddToMapImage l m ∧
    ∀ (p : GoStr) (d : SidecarData), d.readable = true →
      lookupA (sidecarKey p d) (parseExtractMetadatJsonFileAndAddToMapImage [(p, d)] m) =
        some ((extractDateFolder d.photoTakenTs).getD []) := by
  refine ⟨sidecar_ignores_creation g l m, ?_⟩
  intro p d hd
  rw [parseExtractMetadatJsonFileAndAddToMapImage, if_pos hd,
    parseExtractMetadatJsonFileAndAddToMapImage]
  exact lookupA_mapInsert_self _ _ _

/-- C1 counterexample: a sidecar whose photoTakenTime.timestamp is
unparsable but whose creationTime.timestamp parses as ISO-8601: the claim
says the bucket is derived from creationTime (2015/06), or failing that
the record is dropped; the code instead writes the empty-string bucket. -/
theorem claim_C1_counterexample :
    extractDateFolder (gs "garbage") = none ∧
    extractDateFolder (gs "2015-06-07T12:00:00Z") = some (gs "2015/06") ∧
    parseExtractMetadatJsonFileAndAddToMapImage
        [(gs "albums/a.b.c.json",
          (⟨true, gs "a.jpg", gs "garbage", gs "2015-06-07T12:00:00Z"⟩ : SidecarData))]
        [] =
      [(gs "albums/a.jpg", [])] := by decide

/-- C1 witness: the amended claim at a concrete readable sidecar. -/
theorem claim_C1_witness :
    lookupA (sidecarKey (gs "albums/a.b.c.json")
        (⟨true, gs "a.jpg", gs "garbage", gs "2015-06-07T12:00:00Z"⟩ : SidecarData))
      (parseExtractMetadatJsonFileAndAddToMapImage
        [(gs "albums/a.b.c.json",
          (⟨true, gs "a.jpg", gs "garbage", gs "2015-06-07T12:00:00Z"⟩ : SidecarData))]
        []) =
      some ((extractDateFolder (gs "garbage")).getD []) :=
  (claim_C1 (fun _ => []) [] []).2 (gs "albums/a.b.c.json")
    ⟨true, gs "a.jpg", gs "garbage", gs "2015-06-07T12:00:00Z"⟩ rfl

/-- C2: uploadFile succeeds with one success-counter increment exactly on
status 200, 201 or 204, after at most two preceding transient (404/504)
statuses; three transient statuses exhaust the attempts and increment the
failure counter exactly once; any other status fails immediately with one
failure-counter increment regardless of what later attempts would return;
and the two concrete scenarios 404,404,201 and a single 500 behave as the
specification states. -/
theorem claim_C2 (out : Nat → AttemptOutcome) (c : Counters) :
    (∀ k, 1 ≤ k → k ≤ 3 → (∀ j, 1 ≤ j → j < k → isTransient (out j)) →
      isSuccessStatus (out k) → uploadFile out c = (UploadResult.ok, incSucc c)) ∧
    ((∀ j, 1 ≤ j → j ≤ 3 → isTransient (out j)) →
      uploadFile out c = (UploadResult.err, incFail c)) ∧
    (∀ k, 1 ≤ k → k ≤ 3 → (∀ j, 1 ≤ j → j < k → isTransient (out j)) →
      isHardStatus (out k) → uploadFile out c = (UploadResult.err, incFail c)) ∧
    uploadFile (fun n => if n = 3 then AttemptOutcome.status 201 else AttemptOutcome.status 404)
        c = (UploadResult.ok, incSucc c) ∧
    uploadFile (fun _ => AttemptOutcome.status 500) c = (UploadResult.err, incFail c) := by
  refine ⟨?_, ?_, ?_, ?_, ?_⟩
  · intro k hk1 hk3 hpre hsucc
    interval_cases k
    · rcases hsucc with h | h | h <;> rw [uploadFile] <;> simp [uploadLoop, h, incSucc]
    · have t1 := hpre 1 (by omega) (by omega)
      rcases t1 with h1 | h1 <;> rcases hsucc with h2 | h2 | h2 <;>
        rw [uploadFile] <;> simp [uploadLoop, h1, h2, incSucc]
    · have t1 := hpre 1 (by omega) (by omega)
      have t2 := hpre 2 (by omega) (by omega)
      rcases t1 with h1 | h1 <;> rcases t2 with h2 | h2 <;> rcases hsucc with h3 | h3 | h3 <;>
        rw [uploadFile] <;> simp [uploadLoop, h1, h2, h3, incSucc]
  · intro hall
    have t1 := hall 1 (by omega) (by omega)
    have t2 := hall 2 (by omega) (by omega)
    have t3 := hall 3 (by omega) (by omega)
    rcases t1 with h1 | h1 <;> rcases t2 with h2 | h2 <;> rcases t3 with h3 | h3 <;>
      rw [uploadFile] <;> simp [uploadLoop, h1, h2, h3, incFail]
  · intro k hk1 hk3 hpre hhard
    obtain ⟨v, hv, n200, n201, n204, n404, n504⟩ := hhard
    interval_cases k
    · rw [uploadFile]
      simp [uploadLoop, hv, n200, n201, n204, n404, n504, incFail]
    · have t1 := hpre 1 (by omega) (by omega)
      rcases t1 with h1 | h1 <;> rw [uploadFile] <;>
        simp [uploadLoop, h1, hv, n200, n201, n204, n404, n504, incFail]
    · have t1 := hpre 1 (by omega) (by omega)
      have t2 := hpre 2 (by omega) (by omega)
      rcases t1 with h1 | h1 <;> rcases t2 with h2 | h2 <;> rw [uploadFile] <;>
        simp [uploadLoop, h1, h2, hv, n200, n201, n204, n404, n504, incFail]
  · rw [uploadFile]
    simp [uploadLoop, incSucc]
  · rw [uploadFile]
    simp [uploadLoop, incFail]

/-- C2 witness: three transient 404 responses exhaust the attempts and
increment the failure counter once. -/
theorem claim_C2_witness :
    uploadFile (fun _ => AttemptOutcome.status 404)
        { successfullCounter := 0, failedCounter := 0 } =
      (UploadResult.err, incFail { successfullCounter := 0, failedCounter := 0 }) :=
  (claim_C2 (fun _ => AttemptOutcome.status 404)
      { successfullCounter := 0, failedCounter := 0 }).2.1
    (fun _ _ _ => Or.inl rfl)

/-- C3 (amended): after the two resolution phases, PathIndex keys are
unique, so every key maps to exactly one bucket; every bucket is non-empty
except that a key written by the sidecar resolver carries the empty string
exactly when some sidecar targeting it had an unparsable
photoTakenTime.timestamp. -/
theorem claim_C3 (sidecars : List (GoStr × SidecarData)) (media : List GoStr)
    (ex : GoStr → ExifData) :
    ((resolvePhases sidecars media ex).map Prod.fst).Nodup ∧
    ∀ k v, lookupA k (resolvePhases sidecars media ex) = some v →
      v ≠ [] ∨ ∃ pd ∈ sidecars, sidecarKey pd.1 pd.2 = k ∧
        extractDateFolder pd.2.photoTakenTs = none := by
  constructor
  · simp only [resolvePhases]
    exact exif_nodup _ _ (sidecar_nodup _ _ (by simp))
  · intro k v h
    simp only [resolvePhases] at h
    rcases exif_lookup_provenance _ _ _ _ h with hm | ⟨pd, _, _, hv⟩
    · rcases sidecar_lookup_provenance _ _ _ _ hm with h0 | ⟨qd, hmem, hk2, hv2⟩
      · exact absurd h0 (by simp [lookupA])
      · cases hx : extractDateFolder qd.2.photoTakenTs with
        | some s =>
          left
          rw [hv2, hx, Option.getD_some]
          exact extractDateFolder_ne_nil _ s hx
        | none => exact Or.inr ⟨qd, hmem, hk2, hx⟩
    · left
      rw [hv]
      exact exifTimestampOf_ne_nil _

/-- C3 counterexample: one readable sidecar with an unparsable
photoTakenTime.timestamp leaves a key bound to the empty string after both
resolution phases (and the normalization pass does not touch it), so not
every key maps to a non-empty bucket. -/
theorem claim_C3_counterexample :
    resolvePhases
        [(gs "albums/a.b.c.json",
          (⟨true, gs "a.jpg", gs "garbage", gs ""⟩ : SidecarData))] []
        (fun _ => (⟨true, false, true, some (2020, 5), (1, 1)⟩ : ExifData)) =
      [(gs "albums/a.jpg", [])] ∧
    lookupA (gs "albums/a.jpg")
        (normalizePass
          (resolvePhases
            [(gs "albums/a.b.c.json",
              (⟨true, gs "a.jpg", gs "garbage", gs ""⟩ : SidecarData))] []
            (fun _ => (⟨true, false, true, some (2020, 5), (1, 1)⟩ : ExifData)))) =
      some [] := by decide

/-- C3 witness: the amended claim applied at a concrete resolved map. -/
theorem claim_C3_witness :
    gs "2015/06" ≠ [] ∨
      ∃ pd ∈ [(gs "albums/a.b.c.json",
          (⟨true, gs "a.jpg", gs "2015-06-07T12:00:00Z", gs ""⟩ : SidecarData))],
        sidecarKey pd.1 pd.2 = gs "albums/a.jpg" ∧
          extractDateFolder pd.2.photoTakenTs = none :=
  (claim_C3
      [(gs "albums/a.b.c.json",
        (⟨true, gs "a.jpg", gs "2015-06-07T12:00:00Z", gs ""⟩ : SidecarData))] []
      (fun _ => (⟨true, false, true, some (2020, 5), (1, 1)⟩ : ExifData))).2
    (gs "albums/a.jpg") (gs "2015/06") (by decide)

/-- C4 (amended): the normalization pass rewrites a bucket with slash-free
year and month components to 2000/month exactly when the year component
ends in 0001 (for a four-character year component this is exactly the year
0001), and leaves it unchanged otherwise.  The code tests for the
substring 0001/ anywhere in the bucket, so a longer year such as 10001 is
also rewritten. -/
theorem claim_C4 (m : GoMap) (k y mo : GoStr)
    (hy : containsChar '/' y = false) (hmo : containsChar '/' mo = false)
    (hk : lookupA k m = some (y ++ '/' :: mo)) :
    lookupA k (normalizePass m) =
      some (if hasSuffixB y (gs "0001") = true then gs "2000/" ++ mo
        else y ++ '/' :: mo) ∧
    (y.length = 4 → ((hasSuffixB y (gs "0001") = true) ↔ y = gs "0001")) := by
  refine ⟨?_, hasSuffixB_len4 y⟩
  rw [lookupA_normalizePass, hk]
  simp only [Option.map_some']
  rw [normalizeBucket_sep y mo hy hmo]

/-- C4 counterexample: bucket 10001/07 is reachable (from the decimal
epoch timestamp 253450771200) and its year component is 10001, not 0001,
yet the normalization pass rewrites it to 2000/07, so a bucket whose year
is not 0001 is changed. -/
theorem claim_C4_counterexample :
    extractDateFolder (gs "253450771200") = some (gs "10001/07") ∧
    (splitOnChar '/' (gs "10001/07")).getD 0 [] = gs "10001" ∧
    gs "10001" ≠ gs "0001" ∧
    normalizePass [(gs "p/a.jpg", gs "10001/07")] = [(gs "p/a.jpg", gs "2000/07")] := by
  decide

/-- C4 witness: the amended claim at the canonical sentinel bucket
0001/07. -/
theorem claim_C4_witness :
    lookupA (gs "k") (normalizePass [(gs "k", gs "0001/07")]) = some (gs "2000/07") := by
  have h := (claim_C4 [(gs "k", gs "0001/07")] (gs "k") (gs "0001") (gs "07")
    (by decide) (by decide) (by decide)).1
  rw [h]
  decide

/-- C5: provisioning a bucket issues one create-collection request per
nonempty path segment, each request path a prefix of the next (parent
before child), the request sequence being exactly the cumulative segment
paths when every call succeeds; and one segment-creation call succeeds
precisely on response status 200, 201, 204 or 405. -/
theorem claim_C5 (statusOf : GoStr → Nat) (baseURL subFolder : GoStr) :
    ((∀ p, createDirectoryIfNotExists (statusOf p) = true) →
      createNestedDirectories statusOf baseURL subFolder =
        (specSegmentPaths baseURL subFolder, true)) ∧
    parentBeforeChild (specSegmentPaths baseURL subFolder) ∧
    (∀ s : Nat, createDirectoryIfNotExists s = true ↔
      (s = 200 ∨ s = 201 ∨ s = 204 ∨ s = 405)) := by
  refine ⟨?_, specSegmentPathsAux_chain _ _, createDirectoryIfNotExists_iff⟩
  intro hall
  exact createNestedAux_success statusOf hall _ _

/-- C5 witness: provisioning bucket 2024/05 with every call answering 201
requests the parent then the child collection. -/
theorem claim_C5_witness :
    createNestedDirectories (fun _ => 201) (gs "h") (gs "2024/05") =
      ([gs "h/2024", gs "h/2024/05"], true) := by
  have h := (claim_C5 (fun _ => 201) (gs "h") (gs "2024/05")).1 (fun _ => by decide)
  rw [h]
  decide

/-- C6: in every interleaving of one run of uploadMediaFilesToNextcloud,
any state in which at least one upload request has been issued has all n
submitted directory jobs in a terminal state: the wgDir barrier is a hard
phase barrier. -/
theorem claim_C6 (n : Nat) (s : RunState) (h : RunReachable (initState n) s)
    (hu : 0 < s.uploadsIssued) : s.dirsDone = n ∧ s.dirsRemaining = 0 := by
  obtain ⟨h1, h2, h3⟩ := runReachable_invariant n s h
  have hr := h2 (h3 hu)
  exact ⟨by omega, hr⟩

/-- C6 witness: a concrete three-step interleaving with one directory job
and one issued upload. -/
theorem claim_C6_witness :
    (RunState.mk 0 1 MainPC.uploadPhase 1).dirsDone = 1 ∧
      (RunState.mk 0 1 MainPC.uploadPhase 1).dirsRemaining = 0 :=
  claim_C6 1 (RunState.mk 0 1 MainPC.uploadPhase 1)
    (RunReachable.tail
      (RunReachable.tail
        (RunReachable.tail RunReachable.refl
          (RunStep.dirJobTerminal 0 0 MainPC.dirPhase 0))
        (RunStep.waitReturns 1 0))
      (RunStep.uploadIssued 0 1 0))
    (by decide)

/-- C7: the claim is right and the code is wrong: an unreadable sidecar or
an unopenable media file makes the per-item loop return from the whole
function, dropping every remaining item, instead of skipping only the
faulty one.  With a failing first item and a healthy second, both phases
produce an empty map, while the healthy item alone produces its binding. -/
theorem claim_C7_evaluation :
    parseExtractMetadatJsonFileAndAddToMapImage
        [(gs "x/bad.b.c.json", (⟨false, gs "bad.jpg", gs "1433678400", gs ""⟩ : SidecarData)),
         (gs "x/good.b.c.json", (⟨true, gs "good.jpg", gs "1433678400", gs ""⟩ : SidecarData))]
        [] = [] ∧
    parseExtractMetadatJsonFileAndAddToMapImage
        [(gs "x/good.b.c.json", (⟨true, gs "good.jpg", gs "1433678400", gs ""⟩ : SidecarData))]
        [] = [(gs "x/good.jpg", gs "2015/06")] ∧
    parseExtractMediaFilesWithoutMedtadataJsonFileAddToMap
        [(gs "x/bad.jpg", (⟨false, false, true, some (2020, 5), (1, 1)⟩ : ExifData)),
         (gs "x/good2.jpg", (⟨true, false, true, some (2020, 5), (1, 1)⟩ : ExifData))]
        [] = [] ∧
    parseExtractMediaFilesWithoutMedtadataJsonFileAddToMap
        [(gs "x/good2.jpg", (⟨true, false, true, some (2020, 5), (1, 1)⟩ : ExifData))]
        [] = [(gs "x/good2.jpg", gs "2020/05")] := by decide

/-- C8 (amended): on an error-free walk the classification is exactly as
claimed (a sidecar iff the name has extension .json and exactly three
dots, such a .json file failing the dot count is dropped, every other
regular file is raw media); a walk error aborts the scan at that point,
but the error is discarded rather than failing the run: the pipeline
continues on the partial classification. -/
theorem claim_C8 (entries pre post : List WalkEntry) (sc : GoStr → SidecarData)
    (ex : GoStr → ExifData) :
    ((∀ e ∈ entries, e ≠ WalkEntry.err) →
      getMediaFileList entries =
        (entries.filterMap specSidecarSel, entries.filterMap specRawMediaSel)) ∧
    getMediaFileList (pre ++ WalkEntry.err :: post) = getMediaFileList pre ∧
    processDirectory (pre ++ WalkEntry.err :: post) sc ex =
      processDirectory pre sc ex := by
  refine ⟨?_, ?_, ?_⟩
  · intro h
    rw [getMediaFileList, getMediaFileListAux_classify entries [] [] h]
    simp
  · rw [getMediaFileList, getMediaFileList, getMediaFileListAux_err]
  · simp only [processDirectory, getMediaFileList, getMediaFileListAux_err]

/-- C8 counterexample: a walk error makes the scan drop a perfectly valid
sidecar that follows it, yet the run continues normally and produces an
empty index instead of failing before network activity. -/
theorem claim_C8_counterexample :
    processDirectory
        [WalkEntry.err, WalkEntry.entry (gs "a.b.c.json") (gs "x/a.b.c.json") false]
        (fun _ => (⟨true, gs "a.jpg", gs "2015-06-07T12:00:00Z", gs ""⟩ : SidecarData))
        (fun _ => (⟨true, false, true, some (2020, 5), (1, 1)⟩ : ExifData)) = [] ∧
    processDirectory
        [WalkEntry.entry (gs "a.b.c.json") (gs "x/a.b.c.json") false]
        (fun _ => (⟨true, gs "a.jpg", gs "2015-06-07T12:00:00Z", gs ""⟩ : SidecarData))
        (fun _ => (⟨true, false, true, some (2020, 5), (1, 1)⟩ : ExifData)) =
      [(gs "x/a.jpg", gs "2015/06")] := by decide

/-- C8 witness: the classification at a one-sidecar, error-free walk. -/
theorem claim_C8_witness :
    getMediaFileList [WalkEntry.entry (gs "a.b.c.json") (gs "x/a.b.c.json") false] =
      ([gs "x/a.b.c.json"], []) := by
  have h := (claim_C8 [WalkEntry.entry (gs "a.b.c.json") (gs "x/a.b.c.json") false] [] []
      (fun _ => (⟨true, [], [], []⟩ : SidecarData))
      (fun _ => (⟨true, false, true, none, (1, 1)⟩ : ExifData))).1
    (by decide)
  rw [h]
  decide

/-- C9: sidecar-written bindings survive the fallback phase untouched (so
no path is written by both resolvers); every binding of the final index
either comes from the sidecar phase or belongs to a media path that was
absent from the index when the fallback started; the fallback resolver
preserves any existing binding (first writer wins); and among sidecars
targeting the same path the most recent write wins. -/
theorem claim_C9 (sidecars : List (GoStr × SidecarData)) (media : List GoStr)
    (ex : GoStr → ExifData) :
    (∀ k v, lookupA k (parseExtractMetadatJsonFileAndAddToMapImage sidecars []) = some v →
      lookupA k (resolvePhases sidecars media ex) = some v) ∧
    (∀ k v, lookupA k (resolvePhases sidecars media ex) = some v →
      lookupA k (parseExtractMetadatJsonFileAndAddToMapImage sidecars []) = some v ∨
        (lookupA k (parseExtractMetadatJsonFileAndAddToMapImage sidecars []) = none ∧
          k ∈ media)) ∧
    (∀ (l : List (GoStr × ExifData)) (m : GoMap) (k v : GoStr), lookupA k m = some v →
      lookupA k (parseExtractMediaFilesWithoutMedtadataJsonFileAddToMap l m) = some v) ∧
    (∀ (pre : List (GoStr × SidecarData)) (p : GoStr) (d : SidecarData) (m : GoMap),
      (∀ q ∈ pre ++ [(p, d)], (q : GoStr × SidecarData).2.readable = true) →
      lookupA (sidecarKey p d)
          (parseExtractMetadatJsonFileAndAddToMapImage (pre ++ [(p, d)]) m) =
        some ((extractDateFolder d.photoTakenTs).getD [])) := by
  refine ⟨?_, ?_, exif_preserves, ?_⟩
  · intro k v h
    simp only [resolvePhases]
    exact exif_preserves _ _ _ _ h
  · intro k v h
    simp only [resolvePhases] at h
    rcases exif_lookup_provenance _ _ _ _ h with hm | ⟨pd, hmem, hk, _⟩
    · exact Or.inl hm
    · obtain ⟨p2, hpf, hpe⟩ := List.mem_map.mp hmem
      obtain ⟨hpm, hpn⟩ := List.mem_filter.mp hpf
      have hp1 : pd.1 = p2 := by rw [← hpe]
      rw [hp1] at hk
      subst hk
      refine Or.inr ⟨?_, hpm⟩
      rwa [Option.isNone_iff_eq_none] at hpn
  · intro pre p d m hall
    exact sidecar_last_write pre p d m
      (fun q hq => hall q (List.mem_append_left _ hq))
      (hall (p, d) (List.mem_append_right _ (List.mem_singleton_self _)))

/-- C9 witness: the fallback phase preserves an existing binding. -/
theorem claim_C9_witness :
    lookupA (gs "a")
        (parseExtractMediaFilesWithoutMedtadataJsonFileAddToMap [] [(gs "a", gs "b")]) =
      some (gs "b") :=
  (claim_C9 [] [] (fun _ => (⟨true, false, false, none, (1, 1)⟩ : ExifData))).2.2.1
    [] [(gs "a", gs "b")] (gs "a") (gs "b") (by decide)

/-- C10: an upload attempt failing before any HTTP status (open failure,
request-construction failure, or transport error at the first attempt)
returns an error without touching either counter, while the worker still
emits one progress unit per job; so a batch of such jobs yields as many
progress units as jobs with both counters unchanged, and the counter sum
falls short of the entry count. -/
theorem claim_C10 (jobs : List (Nat → AttemptOutcome)) (c : Counters)
    (h : ∀ u ∈ jobs, preStatusFailure (u 1)) :
    worker jobs c = (jobs.length, c) ∧
      ∀ u ∈ jobs, uploadFile u c = (UploadResult.err, c) := by
  constructor
  · induction jobs generalizing c with
    | nil => rfl
    | cons u rest ih =>
      have hu := h u (List.mem_cons_self _ _)
      simp only [worker, uploadFile_preStatusFailure u c hu]
      rw [ih c (fun x hx => h x (List.mem_cons_of_mem _ hx))]
      simp
  · exact fun u hu => uploadFile_preStatusFailure u c (h u hu)

/-- C10 witness: one open-failure job emits one progress unit and leaves
both counters at zero. -/
theorem claim_C10_witness :
    worker [fun _ => AttemptOutcome.openErr]
        { successfullCounter := 0, failedCounter := 0 } =
      (1, { successfullCounter := 0, failedCounter := 0 }) :=
  (claim_C10 [fun _ => AttemptOutcome.openErr]
      { successfullCounter := 0, failedCounter := 0 }
      (fun u hu => by
        rw [List.mem_singleton] at hu
        subst hu
        exact Or.inl rfl)).1
